import Mathlib

/-!
Verification development for the AllAngles Glyphs reporter plugin
(src/AllAngles.glyphsReporter/Contents/Resources/plugin.py).

The plugin is a thin visualization layer over a small 2D vector library.
We embed the vector library and the rendering/dispatch logic shallowly:

* Real numbers stand for Python floats; all geometric identities are
  proved exactly over the reals.
* Python `math.atan2(y, x)` is modelled as the argument of the complex
  number `x + y*I` (`Complex.arg` has range `(-pi, pi]`, matching atan2).
* Python float `%` with a positive modulus is modelled by `pymod`,
  which subtracts the floored quotient times the modulus; for a positive
  modulus the result lies in `[0, modulus)`, matching Python semantics.
* A Python `ZeroDivisionError` (division of a float by `0.0` raises in
  Python) is modelled with `Option`: `none` is a raised error.  The
  source has no `try` around the geometry, so an error propagates out of
  `foreground`; `renderAll` therefore aborts with `none` as soon as one
  segment fails.
* The label string produced by `round`/string formatting and the text
  anchor derived from it (`get_text_anchor`) are not part of the numeric
  embedding: no claim refers to the label text, and the anchor depends
  only on the printed length of that string.  `get_text_anchor` is still
  embedded below, parameterized by that printed length.
* Host state: the flags `show_lines`/`show_handles` and the two context
  menu entries from the source are the plugin state.  The host also owns
  a process-wide key/value preference store (`Glyphs.defaults`); the
  plugin source never reads or writes it, so the embedded toggle actions
  carry the store through unchanged.
-/

namespace AllAngles

open Real

/-- A 2D point / vector, components as in the Python pair of floats. -/
abbrev Point : Type := ℝ × ℝ

/-- Python `math.atan2(y, x)`: the angle of the point `(x, y)`, in
`(-pi, pi]`, modelled by the complex argument of `x + y*I`. -/
noncomputable def atan2 (y x : ℝ) : ℝ :=
  Complex.arg ((x : ℂ) + (y : ℂ) * Complex.I)

/-- Python `math.degrees`: radians to degrees. -/
noncomputable def degrees (x : ℝ) : ℝ :=
  x * 180 / Real.pi

/-- Python float `a % b`: `a - b * floor (a / b)`.  For `b > 0` the
result lies in `[0, b)`, the semantics the source relies on. -/
noncomputable def pymod (a b : ℝ) : ℝ :=
  a - b * (⌊a / b⌋ : ℤ)

/-- Embeds `get_unit_vector` (plugin.py lines 40-46):
`length = sqrt(x**2 + y**2); return x / length, y / length`.
There is no zero-length guard in the source: when `length` is `0` the
division raises `ZeroDivisionError`, modelled here as `none`. -/
noncomputable def get_unit_vector (x y : ℝ) : Option (ℝ × ℝ) :=
  let length := Real.sqrt (x ^ 2 + y ^ 2)
  if length = 0 then none else some (x / length, y / length)

/-- Embeds `get_vector_angle` (plugin.py lines 49-59):
`x_norm, y_norm = get_unit_vector(x, y);
return degrees(atan2(x_norm, y_norm)) % 180`.
Note the argument order: the source passes `x_norm` as the first
argument of `atan2`, which is the `y` parameter of `math.atan2`. -/
noncomputable def get_vector_angle (x y : ℝ) : Option ℝ :=
  (get_unit_vector x y).map (fun p => pymod (degrees (atan2 p.1 p.2)) 180)

/-- Embeds `get_rotated_vector` (plugin.py lines 62-67):
`return cos(angle) * x - sin(angle) * y, sin(angle) * x + cos(angle) * y`.
The source gives `angle` the default value `3 * pi / 2`; callers below
pass that value explicitly. -/
noncomputable def get_rotated_vector (x y angle : ℝ) : ℝ × ℝ :=
  (Real.cos angle * x - Real.sin angle * y,
   Real.sin angle * x + Real.cos angle * y)

/-- Embeds `get_intermediate_from_points` (plugin.py lines 70-75):
`return t * (x2 - x1) + x1, t * (y2 - y1) + y1`.  The source calls it
with the default `t = 0.5`. -/
noncomputable def get_intermediate_from_points (x1 y1 x2 y2 t : ℝ) : ℝ × ℝ :=
  (t * (x2 - x1) + x1, t * (y2 - y1) + y1)

/-- Embeds `get_points_from_line` (plugin.py lines 78-83):
unpacks a segment (pair of points) into component floats. -/
noncomputable def get_points_from_line (segment : Point × Point) : ℝ × ℝ × ℝ × ℝ :=
  (segment.1.1, segment.1.2, segment.2.1, segment.2.2)

/-- An RGBA color, embedding `NSColor.colorWithCalibratedRed_green_blue_alpha_`. -/
structure NSColorModel where
  red : ℝ
  green : ℝ
  blue : ℝ
  alpha : ℝ

/-- `LINE_COLOR` (plugin.py line 32). -/
noncomputable def LINE_COLOR : NSColorModel :=
  ⟨56 / 256, 217 / 256, 137 / 256, 1⟩

/-- `HANDLE_COLOR` (plugin.py line 33). -/
noncomputable def HANDLE_COLOR : NSColorModel :=
  ⟨217 / 256, 56 / 256, 107 / 256, 1⟩

/-- `PRECISION` (plugin.py line 34). -/
def PRECISION : ℕ := 1

/-- Embeds `get_text_anchor` (plugin.py lines 206-233).  The Python
argument `text` enters only through `len(text)`, so the embedding takes
that length (`textLen`) directly. -/
noncomputable def get_text_anchor (textLen : ℕ) (scale x1 y1 x2 y2 : ℝ) :
    ℝ × ℝ :=
  let CHARWIDTH : ℝ := 6
  let CHARHEIGHT : ℝ := 12
  let o_x := (textLen : ℝ) / scale
  let o_y := 1 / scale
  let buffer := 8 / scale
  let x_anchor := x2
  let y_anchor := y2
  let x_anchor := if x2 < x1 then x_anchor - CHARWIDTH * o_x else x_anchor
  let y_anchor :=
    if x2 < x1 then y_anchor
    else if x2 = x1 then
      y_anchor + (if y2 > y1 then buffer else -buffer * 0.8)
    else y_anchor
  let x_anchor :=
    if x2 < x1 then x_anchor
    else if x2 = x1 then x_anchor - CHARWIDTH * o_x / 3
    else x_anchor
  let y_anchor :=
    if y2 < y1 then y_anchor - CHARHEIGHT * o_y
    else if y2 = y1 then y_anchor - CHARHEIGHT / 2 * o_y
    else y_anchor - CHARHEIGHT / 2 * o_y
  let x_anchor :=
    if y2 < y1 then x_anchor
    else if y2 = y1 then x_anchor + (if x2 > x1 then buffer else -buffer)
    else x_anchor
  (x_anchor, y_anchor)

/-- The drawing output of `render_indicator_for_line_segment` for one
segment: the computed angle, the leader line from the segment midpoint
to the offset endpoint, the stroke width set in `draw_indicator`
(plugin.py line 202: `setLineWidth_(1 / self.getScale())`), and the
color the indicator is drawn in. -/
structure Indicator where
  theta : ℝ
  leaderStart : Point
  leaderEnd : Point
  lineWidth : ℝ
  color : NSColorModel

/-- Embeds `render_indicator_for_line_segment` (plugin.py lines 140-169)
together with the stroke width set by `draw_indicator` (lines 195-204).
The source first computes `theta = get_vector_angle(dx, dy)` (which
calls `get_unit_vector` and can raise), then
`offset_scale = 14 / self.getScale()`, the midpoint (`t = 0.5`), the
unit direction via a second `get_unit_vector` call, its rotation by the
default angle `3 * pi / 2`, and the offset endpoint. -/
noncomputable def render_indicator_for_line_segment (scale : ℝ)
    (segment : Point × Point) (draw_color : NSColorModel) :
    Option Indicator :=
  let q := get_points_from_line segment
  let x1 := q.1
  let y1 := q.2.1
  let x2 := q.2.2.1
  let y2 := q.2.2.2
  let dx := x2 - x1
  let dy := y2 - y1
  match get_vector_angle dx dy with
  | none => none
  | some theta =>
    match get_unit_vector (x2 - x1) (y2 - y1) with
    | none => none
    | some n =>
      let offset_scale := 14 / scale
      let m := get_intermediate_from_points x1 y1 x2 y2 0.5
      let o := get_rotated_vector n.1 n.2 (3 * Real.pi / 2)
      some { theta := theta
             leaderStart := m
             leaderEnd := (m.1 + offset_scale * o.1, m.2 + offset_scale * o.2)
             lineWidth := 1 / scale
             color := draw_color }

/-- One render call issued by `foreground`: the 2-point segment passed to
`render_indicator_for_line_segment` and the `draw_color` argument. -/
abbrev RenderCall : Type := (Point × Point) × NSColorModel

/-- The dispatch of `foreground` (plugin.py lines 121-138) for a single
segment: a segment with exactly 2 points produces one line render call
when `show_lines` is set; a segment with exactly 4 points produces two
handle render calls (points 1-2 and points 3-4) when `show_handles` is
set; anything else produces none. -/
noncomputable def segmentRenderCalls (show_lines show_handles : Bool)
    (segment : List Point) : List RenderCall :=
  if segment.length = 2 ∧ show_lines = true then
    match segment with
    | p1 :: p2 :: _ => [((p1, p2), LINE_COLOR)]
    | _ => []
  else if segment.length = 4 ∧ show_handles = true then
    match segment with
    | p1 :: p2 :: p3 :: p4 :: _ =>
      [((p1, p2), HANDLE_COLOR), ((p3, p4), HANDLE_COLOR)]
    | _ => []
  else []

/-- All render calls issued by `foreground` over a layer, in order:
the source iterates `layer.paths`, each a list of segments. -/
noncomputable def foregroundCalls (show_lines show_handles : Bool)
    (layer : List (List (List Point))) : List RenderCall :=
  (layer.map (fun path =>
    (path.map (segmentRenderCalls show_lines show_handles)).flatten)).flatten

/-- Executes the render calls in order.  A Python exception raised by
one call aborts the whole `foreground` invocation (there is no handler
in the source), so a `none` from any call makes the result `none`. -/
noncomputable def renderAll (scale : ℝ) :
    List RenderCall → Option (List Indicator)
  | [] => some []
  | c :: rest =>
    match render_indicator_for_line_segment scale c.1 c.2 with
    | none => none
    | some ind => (renderAll scale rest).map (fun l => ind :: l)

/-- Embeds `foreground` (plugin.py lines 121-138): dispatch every
segment of every path, rendering each resulting 2-point segment. -/
noncomputable def foreground (show_lines show_handles : Bool) (scale : ℝ)
    (layer : List (List (List Point))) : Option (List Indicator) :=
  renderAll scale (foregroundCalls show_lines show_handles layer)

/-- The plugin state: the two visibility flags (class attributes,
plugin.py lines 90-96), the two context menu entries installed by
`settings` (lines 98-106), and the host-owned process-wide preference
store (`Glyphs.defaults`), which the plugin source never touches. -/
structure PluginState where
  show_lines : Bool
  show_handles : Bool
  menu0Name : String
  menu1Name : String
  hostPrefs : List (String × Bool)

/-- The state of a fresh plugin instance after `settings` ran: the class
attributes set `show_lines = True`, `show_handles = False`; `settings`
installs the two context menu entries; the host preference store holds
nothing written by this plugin. -/
def initState : PluginState :=
  { show_lines := true
    show_handles := false
    menu0Name := "Hide Line Angles "
    menu1Name := "Show Handle Angles"
    hostPrefs := [] }

/-- Embeds `toggleLines` (plugin.py lines 171-181): flips `show_lines`,
rewrites the first context menu entry, and requests a view refresh (a
drawing side effect with no state change, not modelled).  No preference
store access appears in the source, so `hostPrefs` is unchanged. -/
def toggleLines (s : PluginState) : PluginState :=
  let sl := !s.show_lines
  { s with
    show_lines := sl
    menu0Name := if sl then "Hide Line Angles" else "Show Line Angles" }

/-- Embeds `toggleHandles` (plugin.py lines 183-193): flips
`show_handles` and rewrites the second context menu entry; `hostPrefs`
is unchanged, as in the source. -/
def toggleHandles (s : PluginState) : PluginState :=
  let sh := !s.show_handles
  { s with
    show_handles := sh
    menu1Name := if sh then "Hide Handle Angles" else "Show Handle Angles" }

/-- The 8 compass-direction labels of `segment_quadrant`. -/
inductive Compass where
  | right
  | topright
  | topcenter
  | topleft
  | left
  | bottomleft
  | bottomcenter
  | bottomright
deriving DecidableEq

/-- Modelled from the spec: the bucketing step of `segment_quadrant`,
which is not present under src/ (it belongs to a later revision of this
repository).  An angle already normalized into `[0, 360)` is bucketed
into 8 equal 45-degree sectors `[center - 22.5, center + 22.5)` centered
on the compass points, the `right` sector wrapping across 0/360. -/
noncomputable def quadrant_of_angle (a : ℝ) : Compass :=
  if 22.5 ≤ a ∧ a < 67.5 then .topright
  else if 67.5 ≤ a ∧ a < 112.5 then .topcenter
  else if 112.5 ≤ a ∧ a < 157.5 then .topleft
  else if 157.5 ≤ a ∧ a < 202.5 then .left
  else if 202.5 ≤ a ∧ a < 247.5 then .bottomleft
  else if 247.5 ≤ a ∧ a < 292.5 then .bottomcenter
  else if 292.5 ≤ a ∧ a < 337.5 then .bottomright
  else .right

/-- The sector of the circle assigned to each compass label by the spec:
each sector is `[center - 22.5, center + 22.5)` and `right` wraps across
the 0/360 boundary. -/
def inSector (q : Compass) (a : ℝ) : Prop :=
  match q with
  | .right => (0 ≤ a ∧ a < 22.5) ∨ (337.5 ≤ a ∧ a < 360)
  | .topright => 22.5 ≤ a ∧ a < 67.5
  | .topcenter => 67.5 ≤ a ∧ a < 112.5
  | .topleft => 112.5 ≤ a ∧ a < 157.5
  | .left => 157.5 ≤ a ∧ a < 202.5
  | .bottomleft => 202.5 ≤ a ∧ a < 247.5
  | .bottomcenter => 247.5 ≤ a ∧ a < 292.5
  | .bottomright => 292.5 ≤ a ∧ a < 337.5

/-- Modelled from the spec: `segment_quadrant`, which is not present
under src/.  It takes the geometric angle of the segment direction,
rotates it by +90 degrees, normalizes into `[0, 360)`, and buckets via
`quadrant_of_angle`. -/
noncomputable def segment_quadrant (x1 y1 x2 y2 : ℝ) : Compass :=
  quadrant_of_angle (pymod (degrees (atan2 (y2 - y1) (x2 - x1)) + 90) 360)

/-! ### Helper lemmas -/

lemma sum_sq_pos_of_ne (x y : ℝ) (h : ¬(x = 0 ∧ y = 0)) :
    0 < x ^ 2 + y ^ 2 := by
  rcases not_and_or.mp h with hx | hy
  · have h1 : 0 < x ^ 2 :=
      lt_of_le_of_ne (sq_nonneg x) (Ne.symm (pow_ne_zero 2 hx))
    linarith [sq_nonneg y]
  · have h1 : 0 < y ^ 2 :=
      lt_of_le_of_ne (sq_nonneg y) (Ne.symm (pow_ne_zero 2 hy))
    linarith [sq_nonneg x]

lemma pymod_nonneg_lt (a b : ℝ) (hb : 0 < b) :
    0 ≤ pymod a b ∧ pymod a b < b := by
  unfold pymod
  have h1 : ((⌊a / b⌋ : ℝ)) ≤ a / b := Int.floor_le _
  have h2 : a / b < (⌊a / b⌋ : ℝ) + 1 := Int.lt_floor_add_one _
  have hab : a / b * b = a := div_mul_cancel₀ a (ne_of_gt hb)
  have k1 : (⌊a / b⌋ : ℝ) * b ≤ a / b * b :=
    mul_le_mul_of_nonneg_right h1 (le_of_lt hb)
  have k2 : a / b * b < ((⌊a / b⌋ : ℝ) + 1) * b :=
    mul_lt_mul_of_pos_right h2 hb
  rw [hab] at k1 k2
  constructor
  · nlinarith
  · nlinarith

lemma pymod_add_int_mul (a b : ℝ) (hb : b ≠ 0) (n : ℤ) :
    pymod (a + b * n) b = pymod a b := by
  unfold pymod
  have hq : (a + b * n) / b = a / b + n := by
    field_simp
    ring
  rw [hq, Int.floor_add_int]
  push_cast
  ring

lemma get_unit_vector_of_ne (x y : ℝ) (h : ¬(x = 0 ∧ y = 0)) :
    get_unit_vector x y =
      some (x / Real.sqrt (x ^ 2 + y ^ 2), y / Real.sqrt (x ^ 2 + y ^ 2)) := by
  have hL : Real.sqrt (x ^ 2 + y ^ 2) ≠ 0 :=
    ne_of_gt (Real.sqrt_pos.mpr (sum_sq_pos_of_ne x y h))
  simp [get_unit_vector, hL]

lemma get_unit_vector_zero : get_unit_vector 0 0 = none := by
  simp [get_unit_vector]

/-! ### Claim theorems -/

/-- C7: for every non-zero 2D vector `(x, y)`, `get_unit_vector x y`
succeeds and returns a vector of magnitude 1 (exactly, over the reals);
for the zero vector it fails with a division error (`none`). -/
theorem get_unit_vector_magnitude_one (x y : ℝ) (h : ¬(x = 0 ∧ y = 0)) :
    (∃ u, get_unit_vector x y = some u ∧ u.1 ^ 2 + u.2 ^ 2 = 1) ∧
      get_unit_vector 0 0 = none := by
  have hpos : 0 < x ^ 2 + y ^ 2 := sum_sq_pos_of_ne x y h
  have hL2 : Real.sqrt (x ^ 2 + y ^ 2) ^ 2 = x ^ 2 + y ^ 2 :=
    Real.sq_sqrt hpos.le
  have hL : Real.sqrt (x ^ 2 + y ^ 2) ≠ 0 :=
    ne_of_gt (Real.sqrt_pos.mpr hpos)
  refine ⟨⟨_, get_unit_vector_of_ne x y h, ?_⟩, get_unit_vector_zero⟩
  have expand :
      (x / Real.sqrt (x ^ 2 + y ^ 2)) ^ 2 +
        (y / Real.sqrt (x ^ 2 + y ^ 2)) ^ 2 =
      (x ^ 2 + y ^ 2) / Real.sqrt (x ^ 2 + y ^ 2) ^ 2 := by
    ring
  simp only [expand, hL2]
  exact div_self (ne_of_gt hpos)

/-- C7 witness: the theorem applied at the concrete vector `(3, 4)`. -/
theorem get_unit_vector_magnitude_one_witness :
    ¬((3 : ℝ) = 0 ∧ (4 : ℝ) = 0) ∧
      ((∃ u, get_unit_vector 3 4 = some u ∧ u.1 ^ 2 + u.2 ^ 2 = 1) ∧
        get_unit_vector 0 0 = none) :=
  ⟨by norm_num, get_unit_vector_magnitude_one 3 4 (by norm_num)⟩

/-- C8: `get_rotated_vector` with angle 0 is the identity, and rotating
by `θ` and then by `-θ` returns the original vector, exactly over the
reals. -/
theorem get_rotated_vector_id_inverse (x y θ : ℝ) :
    get_rotated_vector x y 0 = (x, y) ∧
      get_rotated_vector (get_rotated_vector x y θ).1
        (get_rotated_vector x y θ).2 (-θ) = (x, y) := by
  constructor
  · simp [get_rotated_vector]
  · simp only [get_rotated_vector, Real.cos_neg, Real.sin_neg]
    have hpyth := Real.sin_sq_add_cos_sq θ
    refine Prod.ext ?_ ?_
    · show Real.cos θ * (Real.cos θ * x - Real.sin θ * y) -
        -Real.sin θ * (Real.sin θ * x + Real.cos θ * y) = x
      linear_combination x * hpyth
    · show -Real.sin θ * (Real.cos θ * x - Real.sin θ * y) +
        Real.cos θ * (Real.sin θ * x + Real.cos θ * y) = y
      linear_combination y * hpyth

/-- C10: a fresh plugin instance has `show_lines = True` and
`show_handles = False`, so by default a 2-point segment is dispatched to
one line-colored render call and a 4-point segment to none. -/
theorem initial_flags_default_dispatch :
    initState.show_lines = true ∧ initState.show_handles = false ∧
      (∀ p1 p2 : Point,
        segmentRenderCalls initState.show_lines initState.show_handles
          [p1, p2] = [((p1, p2), LINE_COLOR)]) ∧
      (∀ p1 p2 p3 p4 : Point,
        segmentRenderCalls initState.show_lines initState.show_handles
          [p1, p2, p3, p4] = []) := by
  refine ⟨rfl, rfl, ?_, ?_⟩
  · intro p1 p2
    simp [segmentRenderCalls, initState]
  · intro p1 p2 p3 p4
    simp [segmentRenderCalls, initState]

/-- C3: the `foreground` dispatch per segment: a 2-point segment yields
exactly one line render call precisely when `show_lines` is set, a
4-point segment yields exactly the two handle render calls (points 1-2
and points 3-4) precisely when `show_handles` is set, and any other
point count yields none. -/
theorem foreground_dispatch_classification (sl sh : Bool) :
    (∀ p1 p2 : Point,
      segmentRenderCalls sl sh [p1, p2] =
        if sl then [((p1, p2), LINE_COLOR)] else []) ∧
    (∀ p1 p2 p3 p4 : Point,
      segmentRenderCalls sl sh [p1, p2, p3, p4] =
        if sh then [((p1, p2), HANDLE_COLOR), ((p3, p4), HANDLE_COLOR)]
        else []) ∧
    (∀ seg : List Point, seg.length ≠ 2 → seg.length ≠ 4 →
      segmentRenderCalls sl sh seg = []) := by
  refine ⟨?_, ?_, ?_⟩
  · intro p1 p2
    cases sl <;> simp [segmentRenderCalls]
  · intro p1 p2 p3 p4
    cases sh <;> simp [segmentRenderCalls]
  · intro seg h2 h4
    simp [segmentRenderCalls, h2, h4]

/-- C3 witness: the classification applied to concrete segments with
both flags set, hypotheses discharged on a 1-point segment. -/
theorem foreground_dispatch_classification_witness :
    segmentRenderCalls true true [((5 : ℝ), (6 : ℝ))] = [] :=
  (foreground_dispatch_classification true true).2.2
    [((5 : ℝ), (6 : ℝ))] (by simp) (by simp)

/-- C5 counterexample: after one `toggleLines` from the initial state
the in-memory flag has flipped, but the host preference store is
untouched (still empty), so no persisted state matches the flag. -/
theorem toggle_persists_counterexample :
    (toggleLines initState).show_lines ≠ initState.show_lines ∧
      (toggleLines initState).hostPrefs = initState.hostPrefs ∧
      (toggleLines initState).hostPrefs = [] := by
  refine ⟨by simp [toggleLines, initState], rfl, rfl⟩

lemma atan2_one_zero : atan2 1 0 = Real.pi / 2 := by
  have h : ((0 : ℝ) : ℂ) + ((1 : ℝ) : ℂ) * Complex.I = Complex.I := by
    push_cast
    ring
  rw [atan2, h, Complex.arg_I]

lemma atan2_zero_one : atan2 0 1 = 0 := by
  have h : ((1 : ℝ) : ℂ) + ((0 : ℝ) : ℂ) * Complex.I = 1 := by
    push_cast
    ring
  rw [atan2, h, Complex.arg_one]

lemma atan2_neg_one_zero : atan2 (-1) 0 = -(Real.pi / 2) := by
  have h : ((0 : ℝ) : ℂ) + ((-1 : ℝ) : ℂ) * Complex.I = -Complex.I := by
    push_cast
    ring
  rw [atan2, h, Complex.arg_neg_I]

lemma degrees_pi_div_two : degrees (Real.pi / 2) = 90 := by
  rw [degrees]
  field_simp
  ring

lemma degrees_zero : degrees 0 = 0 := by
  simp [degrees]

lemma degrees_neg_pi_div_two : degrees (-(Real.pi / 2)) = -90 := by
  rw [degrees]
  field_simp
  ring

lemma pymod_ninety : pymod 90 180 = 90 := by
  rw [pymod]
  have h : ⌊(90 : ℝ) / 180⌋ = 0 := by
    rw [Int.floor_eq_zero_iff]
    constructor <;> norm_num
  rw [h]
  norm_num

lemma pymod_zero_self : pymod 0 180 = 0 := by
  rw [pymod]
  norm_num

lemma pymod_neg_ninety : pymod (-90) 180 = 90 := by
  rw [pymod]
  have h : ⌊(-90 : ℝ) / 180⌋ = -1 := by
    rw [Int.floor_eq_iff]
    constructor <;> norm_num
  rw [h]
  norm_num

/-- C1: the code contradicts the claim (and its own docstring): because
the source passes the components to `atan2` in swapped order, a purely
horizontal vector yields 90.0 and a purely vertical vector yields 0.0 —
the opposite of the claimed values `get_vector_angle 1 0 = 0`,
`get_vector_angle 0 1 = 90`, `get_vector_angle (-1) 0 = 0`. -/
theorem get_vector_angle_swapped_axes :
    get_vector_angle 1 0 = some 90 ∧ get_vector_angle 0 1 = some 0 ∧
      get_vector_angle (-1) 0 = some 90 := by
  have h10 : get_unit_vector 1 0 = some (1, 0) := by
    have := get_unit_vector_of_ne 1 0 (by norm_num)
    simpa using this
  have h01 : get_unit_vector 0 1 = some (0, 1) := by
    have := get_unit_vector_of_ne 0 1 (by norm_num)
    simpa using this
  have hm10 : get_unit_vector (-1) 0 = some (-1, 0) := by
    have := get_unit_vector_of_ne (-1) 0 (by norm_num)
    simpa using this
  refine ⟨?_, ?_, ?_⟩
  · rw [get_vector_angle, h10]
    simp only [Option.map_some']
    rw [atan2_one_zero, degrees_pi_div_two, pymod_ninety]
  · rw [get_vector_angle, h01]
    simp only [Option.map_some']
    rw [atan2_zero_one, degrees_zero, pymod_zero_self]
  · rw [get_vector_angle, hm10]
    simp only [Option.map_some']
    rw [atan2_neg_one_zero, degrees_neg_pi_div_two, pymod_neg_ninety]

/-- C4: for every non-zero vector, `get_vector_angle` is invariant under
negating the vector (180-degree symmetry) and its value lies in the
half-open range `[0, 180)`. -/
theorem get_vector_angle_symmetry_range (x y : ℝ) (h : ¬(x = 0 ∧ y = 0)) :
    get_vector_angle x y = get_vector_angle (-x) (-y) ∧
      ∃ θ, get_vector_angle x y = some θ ∧ 0 ≤ θ ∧ θ < 180 := by
  have hpos : 0 < x ^ 2 + y ^ 2 := sum_sq_pos_of_ne x y h
  have hL0 : 0 < Real.sqrt (x ^ 2 + y ^ 2) := Real.sqrt_pos.mpr hpos
  have hL : Real.sqrt (x ^ 2 + y ^ 2) ≠ 0 := ne_of_gt hL0
  have hu1 : get_unit_vector x y =
      some (x / Real.sqrt (x ^ 2 + y ^ 2), y / Real.sqrt (x ^ 2 + y ^ 2)) :=
    get_unit_vector_of_ne x y h
  have hneg : ¬((-x) = 0 ∧ (-y) = 0) := by
    intro hc
    exact h ⟨neg_eq_zero.mp hc.1, neg_eq_zero.mp hc.2⟩
  have hsame : (-x) ^ 2 + (-y) ^ 2 = x ^ 2 + y ^ 2 := by ring
  have hu2 : get_unit_vector (-x) (-y) =
      some (-(x / Real.sqrt (x ^ 2 + y ^ 2)),
            -(y / Real.sqrt (x ^ 2 + y ^ 2))) := by
    rw [get_unit_vector_of_ne (-x) (-y) hneg, hsame]
    rw [neg_div, neg_div]
  set xn := x / Real.sqrt (x ^ 2 + y ^ 2) with hxn
  set yn := y / Real.sqrt (x ^ 2 + y ^ 2) with hyn
  set z : ℂ := ((yn : ℝ) : ℂ) + ((xn : ℝ) : ℂ) * Complex.I with hzdef
  have hzne : z ≠ 0 := by
    intro hzz
    have hre : yn = 0 := by
      have := congrArg Complex.re hzz
      simpa [hzdef] using this
    have him : xn = 0 := by
      have := congrArg Complex.im hzz
      simpa [hzdef] using this
    apply h
    constructor
    · rcases div_eq_zero_iff.mp (hxn ▸ him) with hx0 | hc
      · exact hx0
      · exact absurd hc hL
    · rcases div_eq_zero_iff.mp (hyn ▸ hre) with hy0 | hc
      · exact hy0
      · exact absurd hc hL
  have hatan1 : atan2 xn yn = z.arg := by
    rw [atan2, hzdef]
  have hnegz : ((-yn : ℝ) : ℂ) + ((-xn : ℝ) : ℂ) * Complex.I = -z := by
    rw [hzdef]
    push_cast
    ring
  have hatan2 : atan2 (-xn) (-yn) = (-z).arg := by
    rw [atan2, hnegz]
  have harg := Complex.arg_neg_coe_angle hzne
  rw [← Real.Angle.coe_add, Real.Angle.angle_eq_iff_two_pi_dvd_sub] at harg
  obtain ⟨k, hk⟩ := harg
  have hdeg : degrees ((-z).arg) =
      degrees (z.arg) + 180 * ((2 * k + 1 : ℤ) : ℝ) := by
    have hval : (-z).arg = z.arg + Real.pi + 2 * Real.pi * k := by
      linarith [hk]
    rw [degrees, degrees, hval]
    have hπ : Real.pi ≠ 0 := Real.pi_ne_zero
    field_simp
    ring
  have hmod : pymod (degrees ((-z).arg)) 180 =
      pymod (degrees (z.arg)) 180 := by
    rw [hdeg]
    exact pymod_add_int_mul (degrees z.arg) 180 (by norm_num) (2 * k + 1)
  have e1 : get_vector_angle x y = some (pymod (degrees z.arg) 180) := by
    rw [get_vector_angle, hu1]
    simp only [Option.map_some']
    rw [hatan1]
  have e2 : get_vector_angle (-x) (-y) = some (pymod (degrees z.arg) 180) := by
    rw [get_vector_angle, hu2]
    simp only [Option.map_some']
    rw [hatan2, hmod]
  constructor
  · rw [e1, e2]
  · refine ⟨pymod (degrees z.arg) 180, e1, ?_⟩
    exact pymod_nonneg_lt (degrees z.arg) 180 (by norm_num)

/-- C4 witness: the theorem applied at the concrete vector `(1, 2)`. -/
theorem get_vector_angle_symmetry_range_witness :
    ¬((1 : ℝ) = 0 ∧ (2 : ℝ) = 0) ∧
      (get_vector_angle 1 2 = get_vector_angle (-1) (-2) ∧
        ∃ θ, get_vector_angle 1 2 = some θ ∧ 0 ≤ θ ∧ θ < 180) :=
  ⟨by norm_num, get_vector_angle_symmetry_range 1 2 (by norm_num)⟩

/-- C2: the code contradicts the claim: `get_unit_vector` has no
zero-length special case (it fails on the zero vector), and a
zero-length segment makes the whole `foreground` pass abort with the
propagated division error instead of skipping that segment — even when
a further well-formed segment follows in the outline. -/
theorem degenerate_segment_aborts_foreground :
    get_unit_vector 0 0 = none ∧
      foreground true false 1
        [[[((0 : ℝ), (0 : ℝ)), ((0 : ℝ), (0 : ℝ))],
          [((0 : ℝ), (0 : ℝ)), ((1 : ℝ), (0 : ℝ))]]] = none := by
  refine ⟨get_unit_vector_zero, ?_⟩
  have hcalls : foregroundCalls true false
      [[[((0 : ℝ), (0 : ℝ)), ((0 : ℝ), (0 : ℝ))],
        [((0 : ℝ), (0 : ℝ)), ((1 : ℝ), (0 : ℝ))]]] =
      [((((0 : ℝ), (0 : ℝ)), ((0 : ℝ), (0 : ℝ))), LINE_COLOR),
       ((((0 : ℝ), (0 : ℝ)), ((1 : ℝ), (0 : ℝ))), LINE_COLOR)] := by
    simp [foregroundCalls, segmentRenderCalls]
  have hfail : render_indicator_for_line_segment 1
      (((0 : ℝ), (0 : ℝ)), ((0 : ℝ), (0 : ℝ))) LINE_COLOR = none := by
    simp [render_indicator_for_line_segment, get_points_from_line,
      get_vector_angle, get_unit_vector]
  rw [foreground, hcalls, renderAll, hfail]

lemma cos_three_pi_div_two : Real.cos (3 * Real.pi / 2) = 0 := by
  rw [show 3 * Real.pi / 2 = Real.pi + Real.pi / 2 by ring, Real.cos_add]
  simp

lemma sin_three_pi_div_two : Real.sin (3 * Real.pi / 2) = -1 := by
  rw [show 3 * Real.pi / 2 = Real.pi + Real.pi / 2 by ring, Real.sin_add]
  simp

/-- C6: for every non-degenerate segment and positive zoom factor, the
rendered indicator has its leader line starting at the segment midpoint
and ending at a point offset by a perpendicular vector of length
`14 / zoom` (stated as squared length and zero dot product with the
segment direction), and its stroke width is `1 / zoom`. -/
theorem leader_line_offset_and_width (z : ℝ) (hz : 0 < z)
    (p1 p2 : Point) (hne : p1 ≠ p2) (c : NSColorModel) :
    ∃ ind, render_indicator_for_line_segment z (p1, p2) c = some ind ∧
      ind.leaderStart = ((p1.1 + p2.1) / 2, (p1.2 + p2.2) / 2) ∧
      (ind.leaderEnd.1 - ind.leaderStart.1) ^ 2 +
        (ind.leaderEnd.2 - ind.leaderStart.2) ^ 2 = (14 / z) ^ 2 ∧
      (ind.leaderEnd.1 - ind.leaderStart.1) * (p2.1 - p1.1) +
        (ind.leaderEnd.2 - ind.leaderStart.2) * (p2.2 - p1.2) = 0 ∧
      ind.lineWidth = 1 / z := by
  obtain ⟨x1, y1⟩ := p1
  obtain ⟨x2, y2⟩ := p2
  have hD : ¬(x2 - x1 = 0 ∧ y2 - y1 = 0) := by
    rintro ⟨h1, h2⟩
    apply hne
    have e1 : x1 = x2 := by linarith
    have e2 : y1 = y2 := by linarith
    rw [e1, e2]
  have hpos : 0 < (x2 - x1) ^ 2 + (y2 - y1) ^ 2 :=
    sum_sq_pos_of_ne (x2 - x1) (y2 - y1) hD
  have hu : get_unit_vector (x2 - x1) (y2 - y1) =
      some ((x2 - x1) / Real.sqrt ((x2 - x1) ^ 2 + (y2 - y1) ^ 2),
            (y2 - y1) / Real.sqrt ((x2 - x1) ^ 2 + (y2 - y1) ^ 2)) :=
    get_unit_vector_of_ne (x2 - x1) (y2 - y1) hD
  set L : ℝ := Real.sqrt ((x2 - x1) ^ 2 + (y2 - y1) ^ 2) with hLdef
  have hL0 : 0 < L := Real.sqrt_pos.mpr hpos
  have hL : L ≠ 0 := ne_of_gt hL0
  have hL2 : L ^ 2 = (x2 - x1) ^ 2 + (y2 - y1) ^ 2 := Real.sq_sqrt hpos.le
  have hzne : z ≠ 0 := ne_of_gt hz
  have key : ((x2 - x1) / L) ^ 2 + ((y2 - y1) / L) ^ 2 = 1 := by
    rw [div_pow, div_pow, div_add_div_same, ← hL2]
    exact div_self (pow_ne_zero 2 hL)
  simp only [render_indicator_for_line_segment, get_points_from_line,
    get_vector_angle, hu, Option.map_some']
  refine ⟨_, rfl, ?_, ?_, ?_, ?_⟩
  · show get_intermediate_from_points x1 y1 x2 y2 0.5 =
      ((x1 + x2) / 2, (y1 + y2) / 2)
    have h05 : (0.5 : ℝ) = 1 / 2 := by norm_num
    simp only [get_intermediate_from_points, h05]
    exact Prod.ext (by ring) (by ring)
  · simp only [get_intermediate_from_points, get_rotated_vector,
      cos_three_pi_div_two, sin_three_pi_div_two]
    linear_combination (14 / z) ^ 2 * key
  · simp only [get_intermediate_from_points, get_rotated_vector,
      cos_three_pi_div_two, sin_three_pi_div_two]
    field_simp
    ring
  · rfl

/-- C6 witness: the theorem applied at zoom factor 1 and the segment
from `(0, 0)` to `(1, 0)`. -/
theorem leader_line_offset_and_width_witness :
    (0 : ℝ) < 1 ∧ (((0 : ℝ), (0 : ℝ)) : Point) ≠ ((1 : ℝ), (0 : ℝ)) ∧
      (∃ ind, render_indicator_for_line_segment 1
          (((0 : ℝ), (0 : ℝ)), ((1 : ℝ), (0 : ℝ))) LINE_COLOR = some ind ∧
        ind.leaderStart = ((((0 : ℝ)) + 1) / 2, (((0 : ℝ)) + 0) / 2) ∧
        (ind.leaderEnd.1 - ind.leaderStart.1) ^ 2 +
          (ind.leaderEnd.2 - ind.leaderStart.2) ^ 2 = (14 / 1) ^ 2 ∧
        (ind.leaderEnd.1 - ind.leaderStart.1) * ((1 : ℝ) - 0) +
          (ind.leaderEnd.2 - ind.leaderStart.2) * ((0 : ℝ) - 0) = 0 ∧
        ind.lineWidth = 1 / 1) :=
  ⟨by norm_num, by norm_num [Prod.ext_iff],
    leader_line_offset_and_width 1 (by norm_num)
      ((0 : ℝ), (0 : ℝ)) ((1 : ℝ), (0 : ℝ))
      (by norm_num [Prod.ext_iff]) LINE_COLOR⟩

/-- C5 amended: invoking either toggle action twice returns its flag to
the original value; the flags live only in instance attributes, and the
toggle actions never write the host preference store. -/
theorem toggle_twice_identity_no_store_write (s : PluginState) :
    (toggleLines (toggleLines s)).show_lines = s.show_lines ∧
      (toggleHandles (toggleHandles s)).show_handles = s.show_handles ∧
      (toggleLines s).hostPrefs = s.hostPrefs ∧
      (toggleHandles s).hostPrefs = s.hostPrefs := by
  refine ⟨?_, ?_, rfl, rfl⟩
  · simp [toggleLines]
  · simp [toggleHandles]

set_option maxHeartbeats 1600000 in
/-- C9: `quadrant_of_angle` realizes the 8-sector partition: on
`[0, 360)` the assigned label is exactly the one whose sector contains
the angle (so the sectors cover the circle with no gaps or overlaps);
the boundary angles behave as claimed (337.5 and 22.4999 map to `right`,
22.5 to `topright`); and `segment_quadrant` buckets a normalized angle
in `[0, 360)` for every segment. -/
theorem quadrant_partition (a : ℝ) (h0 : 0 ≤ a) (h1 : a < 360) :
    (∀ q : Compass, quadrant_of_angle a = q ↔ inSector q a) ∧
      quadrant_of_angle 337.5 = Compass.right ∧
      quadrant_of_angle 22.4999 = Compass.right ∧
      quadrant_of_angle 22.5 = Compass.topright ∧
      (∀ x1 y1 x2 y2 : ℝ, ∃ b, 0 ≤ b ∧ b < 360 ∧
        segment_quadrant x1 y1 x2 y2 = quadrant_of_angle b) := by
  refine ⟨?_, ?_, ?_, ?_, ?_⟩
  · intro q
    have step : ∀ lbl : Compass, quadrant_of_angle a = lbl →
        (∀ r : Compass, (lbl = r ↔ inSector r a)) →
        (quadrant_of_angle a = q ↔ inSector q a) := by
      intro lbl he hall
      rw [he]
      exact hall q
    rcases lt_or_le a 22.5 with h22 | h22
    · have e : quadrant_of_angle a = Compass.right := by
        unfold quadrant_of_angle
        rw [if_neg (by rintro ⟨u, v⟩; linarith),
          if_neg (by rintro ⟨u, v⟩; linarith),
          if_neg (by rintro ⟨u, v⟩; linarith),
          if_neg (by rintro ⟨u, v⟩; linarith),
          if_neg (by rintro ⟨u, v⟩; linarith),
          if_neg (by rintro ⟨u, v⟩; linarith),
          if_neg (by rintro ⟨u, v⟩; linarith)]
      rw [e]
      cases q <;>
        simp only [inSector, reduceCtorEq, false_iff, true_iff] <;>
        first
          | (exact Or.inl ⟨by linarith, by linarith⟩)
          | (exact Or.inr ⟨by linarith, by linarith⟩)
          | (exact ⟨by linarith, by linarith⟩)
          | (rintro (⟨u, v⟩ | ⟨u, v⟩) <;> linarith)
          | (rintro ⟨u, v⟩; linarith)
    · rcases lt_or_le a 67.5 with h67 | h67
      · have e : quadrant_of_angle a = Compass.topright := by
          unfold quadrant_of_angle
          rw [if_pos ⟨h22, h67⟩]
        rw [e]
        cases q <;>
          simp only [inSector, reduceCtorEq, false_iff, true_iff] <;>
          first
            | (exact Or.inl ⟨by linarith, by linarith⟩)
            | (exact Or.inr ⟨by linarith, by linarith⟩)
            | (exact ⟨by linarith, by linarith⟩)
            | (rintro (⟨u, v⟩ | ⟨u, v⟩) <;> linarith)
            | (rintro ⟨u, v⟩; linarith)
      · rcases lt_or_le a 112.5 with h112 | h112
        · have e : quadrant_of_angle a = Compass.topcenter := by
            unfold quadrant_of_angle
            rw [if_neg (by rintro ⟨u, v⟩; linarith), if_pos ⟨h67, h112⟩]
          rw [e]
          cases q <;>
            simp only [inSector, reduceCtorEq, false_iff, true_iff] <;>
            first
              | (exact Or.inl ⟨by linarith, by linarith⟩)
              | (exact Or.inr ⟨by linarith, by linarith⟩)
              | (exact ⟨by linarith, by linarith⟩)
              | (rintro (⟨u, v⟩ | ⟨u, v⟩) <;> linarith)
              | (rintro ⟨u, v⟩; linarith)
        · rcases lt_or_le a 157.5 with h157 | h157
          · have e : quadrant_of_angle a = Compass.topleft := by
              unfold quadrant_of_angle
              rw [if_neg (by rintro ⟨u, v⟩; linarith),
                if_neg (by rintro ⟨u, v⟩; linarith), if_pos ⟨h112, h157⟩]
            rw [e]
            cases q <;>
              simp only [inSector, reduceCtorEq, false_iff, true_iff] <;>
              first
                | (exact Or.inl ⟨by linarith, by linarith⟩)
                | (exact Or.inr ⟨by linarith, by linarith⟩)
                | (exact ⟨by linarith, by linarith⟩)
                | (rintro (⟨u, v⟩ | ⟨u, v⟩) <;> linarith)
                | (rintro ⟨u, v⟩; linarith)
          · rcases lt_or_le a 202.5 with h202 | h202
            · have e : quadrant_of_angle a = Compass.left := by
                unfold quadrant_of_angle
                rw [if_neg (by rintro ⟨u, v⟩; linarith),
                  if_neg (by rintro ⟨u, v⟩; linarith),
                  if_neg (by rintro ⟨u, v⟩; linarith), if_pos ⟨h157, h202⟩]
              rw [e]
              cases q <;>
                simp only [inSector, reduceCtorEq, false_iff, true_iff] <;>
                first
                  | (exact Or.inl ⟨by linarith, by linarith⟩)
                  | (exact Or.inr ⟨by linarith, by linarith⟩)
                  | (exact ⟨by linarith, by linarith⟩)
                  | (rintro (⟨u, v⟩ | ⟨u, v⟩) <;> linarith)
                  | (rintro ⟨u, v⟩; linarith)
            · rcases lt_or_le a 247.5 with h247 | h247
              · have e : quadrant_of_angle a = Compass.bottomleft := by
                  unfold quadrant_of_angle
                  rw [if_neg (by rintro ⟨u, v⟩; linarith),
                    if_neg (by rintro ⟨u, v⟩; linarith),
                    if_neg (by rintro ⟨u, v⟩; linarith),
                    if_neg (by rintro ⟨u, v⟩; linarith),
                    if_pos ⟨h202, h247⟩]
                rw [e]
                cases q <;>
                  simp only [inSector, reduceCtorEq, false_iff, true_iff] <;>
                  first
                    | (exact Or.inl ⟨by linarith, by linarith⟩)
                    | (exact Or.inr ⟨by linarith, by linarith⟩)
                    | (exact ⟨by linarith, by linarith⟩)
                    | (rintro (⟨u, v⟩ | ⟨u, v⟩) <;> linarith)
                    | (rintro ⟨u, v⟩; linarith)
              · rcases lt_or_le a 292.5 with h292 | h292
                · have e : quadrant_of_angle a = Compass.bottomcenter := by
                    unfold quadrant_of_angle
                    rw [if_neg (by rintro ⟨u, v⟩; linarith),
                      if_neg (by rintro ⟨u, v⟩; linarith),
                      if_neg (by rintro ⟨u, v⟩; linarith),
                      if_neg (by rintro ⟨u, v⟩; linarith),
                      if_neg (by rintro ⟨u, v⟩; linarith),
                      if_pos ⟨h247, h292⟩]
                  rw [e]
                  cases q <;>
                    simp only [inSector, reduceCtorEq, false_iff, true_iff] <;>
                    first
                      | (exact Or.inl ⟨by linarith, by linarith⟩)
                      | (exact Or.inr ⟨by linarith, by linarith⟩)
                      | (exact ⟨by linarith, by linarith⟩)
                      | (rintro (⟨u, v⟩ | ⟨u, v⟩) <;> linarith)
                      | (rintro ⟨u, v⟩; linarith)
                · rcases lt_or_le a 337.5 with h337 | h337
                  · have e : quadrant_of_angle a = Compass.bottomright := by
                      unfold quadrant_of_angle
                      rw [if_neg (by rintro ⟨u, v⟩; linarith),
                        if_neg (by rintro ⟨u, v⟩; linarith),
                        if_neg (by rintro ⟨u, v⟩; linarith),
                        if_neg (by rintro ⟨u, v⟩; linarith),
                        if_neg (by rintro ⟨u, v⟩; linarith),
                        if_neg (by rintro ⟨u, v⟩; linarith),
                        if_pos ⟨h292, h337⟩]
                    rw [e]
                    cases q <;>
                      simp only [inSector, reduceCtorEq, false_iff, true_iff] <;>
                      first
                        | (exact Or.inl ⟨by linarith, by linarith⟩)
                        | (exact Or.inr ⟨by linarith, by linarith⟩)
                        | (exact ⟨by linarith, by linarith⟩)
                        | (rintro (⟨u, v⟩ | ⟨u, v⟩) <;> linarith)
                        | (rintro ⟨u, v⟩; linarith)
                  · have e : quadrant_of_angle a = Compass.right := by
                      unfold quadrant_of_angle
                      rw [if_neg (by rintro ⟨u, v⟩; linarith),
                        if_neg (by rintro ⟨u, v⟩; linarith),
                        if_neg (by rintro ⟨u, v⟩; linarith),
                        if_neg (by rintro ⟨u, v⟩; linarith),
                        if_neg (by rintro ⟨u, v⟩; linarith),
                        if_neg (by rintro ⟨u, v⟩; linarith),
                        if_neg (by rintro ⟨u, v⟩; linarith)]
                    rw [e]
                    cases q <;>
                      simp only [inSector, reduceCtorEq, false_iff, true_iff] <;>
                      first
                        | (exact Or.inl ⟨by linarith, by linarith⟩)
                        | (exact Or.inr ⟨by linarith, by linarith⟩)
                        | (exact ⟨by linarith, by linarith⟩)
                        | (rintro (⟨u, v⟩ | ⟨u, v⟩) <;> linarith)
                        | (rintro ⟨u, v⟩; linarith)
  · norm_num [quadrant_of_angle]
  · norm_num [quadrant_of_angle]
  · norm_num [quadrant_of_angle]
  · intro x1 y1 x2 y2
    refine ⟨pymod (degrees (atan2 (y2 - y1) (x2 - x1)) + 90) 360, ?_, ?_, rfl⟩
    · exact (pymod_nonneg_lt _ 360 (by norm_num)).1
    · exact (pymod_nonneg_lt _ 360 (by norm_num)).2

/-- C9 witness: the theorem applied at the concrete angle 0. -/
theorem quadrant_partition_witness :
    (0 : ℝ) ≤ 0 ∧ (0 : ℝ) < 360 ∧
      ((∀ q : Compass, quadrant_of_angle 0 = q ↔ inSector q 0) ∧
        quadrant_of_angle 337.5 = Compass.right ∧
        quadrant_of_angle 22.4999 = Compass.right ∧
        quadrant_of_angle 22.5 = Compass.topright ∧
        (∀ x1 y1 x2 y2 : ℝ, ∃ b, 0 ≤ b ∧ b < 360 ∧
          segment_quadrant x1 y1 x2 y2 = quadrant_of_angle b)) :=
  ⟨le_refl 0, by norm_num, quadrant_partition 0 (le_refl 0) (by norm_num)⟩

end AllAngles
